import Mathlib

/-!
Verification of the Re-Sizer batch image pipeline (`resizer_app.py`).

The development shallowly embeds the two concurrency-free cores of the
program:

* `ImageProcessor.process_image` (per-file transform, lines 44-105 of the
  source): modelled as a total Lean function over an abstract `FileEntry`
  describing what the filesystem and the image codec would do for one path.
  The Python `try/except` boundary is made explicit: `processImageBody` is
  the body of the `try` block and returns `Except`, where an `error` value
  carries both the exception message and the filesystem effects performed
  before the exception; `process_image` is the whole function including the
  `except` handler.  IEEE-754 arithmetic in the dimension computation is
  abstracted to exact natural-number truncation.

* `ProcessingThread.run` (batch coordinator, lines 130-189): modelled as a
  function from the discovery result, a completion-order list of future
  results and a cancellation schedule to the list of emitted Qt signals
  (`log_message`, `progress_update`, `finished`), in emission order.  The
  cancellation flag is a monotone boolean set from outside; it is abstracted
  by the index `k` of the loop check at which it is first observed set
  (`Option Nat`, `none` = never set).
-/

namespace ReSizer

/-- A filesystem path, reduced to the parts `process_image` inspects:
the stem and the (final) suffix.  The Python method `Path.with_suffix` replaces the
suffix; `Path.name` is stem plus suffix. -/
structure Path where
  stem : String
  suffix : String
deriving DecidableEq

/-- Python `PurePath.name`: the final component, stem plus suffix. -/
def Path.name (p : Path) : String := p.stem ++ p.suffix

/-- Python `PurePath.with_suffix`: same stem, new suffix. -/
def Path.with_suffix (p : Path) (s : String) : Path := ⟨p.stem, s⟩

/-- What the external world (image codec + filesystem) does for one file:
its decoded dimensions and whether each fallible step of
`ImageProcessor.process_image` succeeds or raises.  `outputExistsAfterSave`
models the `output_path.exists()` check after the save. -/
structure FileEntry where
  width : Nat
  height : Nat
  decodeOk : Bool
  resizeOk : Bool
  saveOk : Bool
  outputExistsAfterSave : Bool
  unlinkOk : Bool
deriving DecidableEq

/-- The filesystem side effects performed by one `process_image` call:
paths written (`img_resized.save`) and paths deleted (`file_path.unlink`). -/
structure FSEffects where
  writes : List Path
  deletes : List Path
deriving DecidableEq

/-- `ImageProcessor.MAX_DIMENSION` (source line 41). -/
def MAX_DIMENSION : Nat := 3840

/-- Source lines 66-73: aspect-ratio-preserving new dimensions.  The Python
`int((height / width) * MAX_DIMENSION)` float truncation is modelled as
exact natural truncation `height * MAX_DIMENSION / width`. -/
def newDimensions (width height : Nat) : Nat × Nat :=
  if height < width then
    (MAX_DIMENSION, height * MAX_DIMENSION / width)
  else
    (width * MAX_DIMENSION / height, MAX_DIMENSION)

/-- Source line 55: the skip message. -/
def skippedMessage (maxDim : Nat) (p : Path) : String :=
  "Skipped (already " ++ toString maxDim ++ "px): " ++ p.name

/-- Source line 102: the success message (arrow glyph transliterated). -/
def resizedMessage (maxDim : Nat) (nd : Nat × Nat) (p : Path) : String :=
  "Resized " ++ toString maxDim ++ "px -> " ++ toString (max nd.1 nd.2) ++ "px: " ++ p.name

/-- Source line 104: the message built by the `except` handler. -/
def errorMessage (p : Path) (e : String) : String :=
  "Error processing " ++ p.name ++ ": " ++ e

/-- Body of the `try` block of `ImageProcessor.process_image` (source lines
48-102).  `Except.error (e, effs)` means the body raised an exception with
message `e` after having performed effects `effs`; `Except.ok (r, effs)`
means it returned `r` having performed `effs`. -/
def processImageBody (entry : FileEntry) (p : Path) :
    Except (String × FSEffects) ((Bool × String) × FSEffects) :=
  if entry.decodeOk then
    let maxDim := max entry.width entry.height
    if maxDim ≤ MAX_DIMENSION then
      Except.ok ((false, skippedMessage maxDim p), FSEffects.mk [] [])
    else
      let nd := newDimensions entry.width entry.height
      if entry.resizeOk then
        let outputPath := p.with_suffix ".webp"
        if entry.saveOk then
          if outputPath ≠ p ∧ entry.outputExistsAfterSave then
            if entry.unlinkOk then
              Except.ok ((true, resizedMessage maxDim nd p), FSEffects.mk [outputPath] [p])
            else
              Except.error ("unlink failed", FSEffects.mk [outputPath] [])
          else
            Except.ok ((true, resizedMessage maxDim nd p), FSEffects.mk [outputPath] [])
        else
          Except.error ("save failed", FSEffects.mk [] [])
      else
        Except.error ("resize failed", FSEffects.mk [] [])
  else
    Except.error ("cannot identify image file", FSEffects.mk [] [])

/-- `ImageProcessor.process_image` (source lines 44-105): the `try` body
with the `except` handler that converts any exception into the
`(False, "Error processing ...")` return value. -/
def process_image (entry : FileEntry) (p : Path) : (Bool × String) × FSEffects :=
  match processImageBody entry p with
  | Except.ok r => r
  | Except.error (e, effs) => ((false, errorMessage p e), effs)

/-- One directory entry seen by `find_images` traversal. -/
structure DirEntry where
  path : Path
  isFile : Bool
deriving DecidableEq

/-- `ImageProcessor.SUPPORTED_FORMATS` (source lines 37-39), with the
optional `.heic` member when HEIC support is available. -/
def SUPPORTED_FORMATS (heic : Bool) : List String :=
  [".jpg", ".jpeg", ".png", ".tiff", ".tif", ".bmp"] ++ (if heic then [".heic"] else [])

/-- `ImageProcessor.find_images` (source lines 107-114): keep regular files
whose lower-cased suffix is in the allow-list, in traversal order. -/
def find_images (heic : Bool) (entries : List DirEntry) : List Path :=
  (entries.filter
    (fun e => e.isFile && (SUPPORTED_FORMATS heic).contains e.path.suffix.toLower)).map
    (fun e => e.path)

/-- A value delivered by `future.result()` in the collection loop: either
the `(was_resized, message)` pair returned by `process_image`, or the
exception the task raised, re-raised at the `result()` call. -/
def FutureResult : Type := Except String (Bool × String)

/-- The Qt signals `ProcessingThread` emits, in emission order:
`log_message`, `progress_update (current, total)` and
`finished (processed, resized, skipped)`. -/
inductive RunEvent where
  | log : String → RunEvent
  | progress : Nat → Nat → RunEvent
  | finished : Nat → Nat → Nat → RunEvent
deriving DecidableEq

/-- The cancellation flag as observed at the check that precedes processing
the next result, when `pc` results have been processed so far: `some k`
means the flag is first observed set at the check with `pc = k`. -/
def cancelledAt (k? : Option Nat) (pc : Nat) : Bool :=
  match k? with
  | none => false
  | some k => decide (k ≤ pc)

/-- Source lines 165-176: the log message and the resized/skipped
classification derived from one `future.result()` call.  A raised exception
is logged as `"Error: ..."` and counted as skipped. -/
def classify (r : FutureResult) : String × Bool :=
  match r with
  | Except.ok (b, msg) => (msg, b)
  | Except.error e => ("Error: " ++ e, false)

/-- Source lines 158-181: the `for future in as_completed(...)` loop.
Arguments: the total file count (for progress events), the cancellation
schedule, the results still to arrive in completion order, and the running
`processed_count`, `total_resized`, `total_skipped` counters.  Returns the
emitted events and the final counters. -/
def collectLoop (total : Nat) (k? : Option Nat) :
    List FutureResult → Nat → Nat → Nat → List RunEvent × Nat × Nat × Nat
  | [], pc, tr, ts => ([], pc, tr, ts)
  | r :: rest, pc, tr, ts =>
    if cancelledAt k? pc then
      ([RunEvent.log "Processing cancelled."], pc, tr, ts)
    else
      let c := classify r
      let next := collectLoop total k? rest (pc + 1)
        (if c.2 then tr + 1 else tr) (if c.2 then ts else ts + 1)
      (RunEvent.log c.1 :: RunEvent.progress (pc + 1) total :: next.1, next.2)

/-- `ProcessingThread.run` (source lines 130-189) as a trace of emitted
signals.  `discovery` is the outcome of `find_images` (`Except.error` = the
`try` body raised before/at discovery, the fatal path); `results` is the
completion-order list of future results, one per discovered file. -/
def run (folder : String) (maxWorkers : Nat) (discovery : Except String (List FutureResult))
    (k? : Option Nat) : List RunEvent :=
  RunEvent.log ("Scanning folder: " ++ folder) ::
    match discovery with
    | Except.error e =>
        [RunEvent.log ("Fatal error: " ++ e), RunEvent.log "<traceback>",
         RunEvent.finished 0 0 0]
    | Except.ok results =>
        if results.length = 0 then
          [RunEvent.log "No supported images found.", RunEvent.finished 0 0 0]
        else
          RunEvent.log ("Found " ++ toString results.length ++ " images. Starting processing...") ::
            RunEvent.log ("Using " ++ toString maxWorkers ++ " worker threads.") ::
              (let out := collectLoop results.length k? results 0 0 0
               out.1 ++ [RunEvent.finished out.2.1 out.2.2.1 out.2.2.2])

/-- The completion-order future results of running `process_image` on a
list of discovered paths: `process_image` never raises, so every future
result is `Except.ok` of its return pair. -/
def resultsOf (env : Path → FileEntry) (paths : List Path) : List FutureResult :=
  paths.map (fun p => Except.ok (process_image (env p) p).1)

/-- The `(current, total)` arguments of the `progress_update` emissions of a
trace, in order. -/
def progressEvents : List RunEvent → List (Nat × Nat)
  | [] => []
  | RunEvent.progress c t :: rest => (c, t) :: progressEvents rest
  | _ :: rest => progressEvents rest

/-- The `(processed, resized, skipped)` arguments of the `finished`
emissions of a trace, in order. -/
def finishedEvents : List RunEvent → List (Nat × Nat × Nat)
  | [] => []
  | RunEvent.finished a b c :: rest => (a, b, c) :: finishedEvents rest
  | _ :: rest => finishedEvents rest

/-- Number of loop iterations that process a result, out of `len` pending
results, starting with `pc` already processed, under schedule `k?`. -/
def stepsTaken (k? : Option Nat) (pc len : Nat) : Nat :=
  match k? with
  | none => len
  | some k => min len (k - pc)

example : process_image (FileEntry.mk 7680 4320 true true true true true) (Path.mk "a" ".jpg") =
    ((true, "Resized 7680px -> 3840px: a.jpg"), FSEffects.mk [Path.mk "a" ".webp"] [Path.mk "a" ".jpg"]) := by
  decide

example : process_image (FileEntry.mk 3840 2160 true true true true true) (Path.mk "a" ".jpg") =
    ((false, "Skipped (already 3840px): a.jpg"), FSEffects.mk [] []) := by
  decide

example : newDimensions 7680 4320 = (3840, 2160) := by decide

@[simp]
lemma progressEvents_nil : progressEvents [] = [] := rfl

@[simp]
lemma progressEvents_log (s : String) (l : List RunEvent) :
    progressEvents (RunEvent.log s :: l) = progressEvents l := rfl

@[simp]
lemma progressEvents_progress (c t : Nat) (l : List RunEvent) :
    progressEvents (RunEvent.progress c t :: l) = (c, t) :: progressEvents l := rfl

@[simp]
lemma progressEvents_finished (a b c : Nat) (l : List RunEvent) :
    progressEvents (RunEvent.finished a b c :: l) = progressEvents l := rfl

@[simp]
lemma progressEvents_append (l m : List RunEvent) :
    progressEvents (l ++ m) = progressEvents l ++ progressEvents m := by
  induction l with
  | nil => rfl
  | cons e rest ih => cases e <;> simp [ih]

@[simp]
lemma finishedEvents_nil : finishedEvents [] = [] := rfl

@[simp]
lemma finishedEvents_log (s : String) (l : List RunEvent) :
    finishedEvents (RunEvent.log s :: l) = finishedEvents l := rfl

@[simp]
lemma finishedEvents_progress (c t : Nat) (l : List RunEvent) :
    finishedEvents (RunEvent.progress c t :: l) = finishedEvents l := rfl

@[simp]
lemma finishedEvents_finished (a b c : Nat) (l : List RunEvent) :
    finishedEvents (RunEvent.finished a b c :: l) = (a, b, c) :: finishedEvents l := rfl

@[simp]
lemma finishedEvents_append (l m : List RunEvent) :
    finishedEvents (l ++ m) = finishedEvents l ++ finishedEvents m := by
  induction l with
  | nil => rfl
  | cons e rest ih => cases e <;> simp [ih]

lemma stepsTaken_zero_len (k? : Option Nat) (pc : Nat) : stepsTaken k? pc 0 = 0 := by
  cases k? <;> simp [stepsTaken]

lemma stepsTaken_cancelled {k pc : Nat} (h : k ≤ pc) (len : Nat) :
    stepsTaken (some k) pc len = 0 := by
  simp [stepsTaken]
  omega

lemma stepsTaken_step {k? : Option Nat} {pc : Nat} (h : cancelledAt k? pc = false) (len : Nat) :
    stepsTaken k? pc (len + 1) = stepsTaken k? (pc + 1) len + 1 := by
  cases k? with
  | none => simp [stepsTaken]
  | some k =>
      simp [cancelledAt] at h
      simp [stepsTaken]
      omega

/-- The final `processed_count` of the collection loop. -/
lemma collectLoop_processed (total : Nat) (k? : Option Nat) :
    ∀ (rs : List FutureResult) (pc tr ts : Nat),
      (collectLoop total k? rs pc tr ts).2.1 = pc + stepsTaken k? pc rs.length := by
  intro rs
  induction rs with
  | nil =>
      intro pc tr ts
      simp [collectLoop, stepsTaken_zero_len]
  | cons r rest ih =>
      intro pc tr ts
      by_cases hc : cancelledAt k? pc
      · cases k? with
        | none => simp [cancelledAt] at hc
        | some k =>
            simp [cancelledAt] at hc
            simp [collectLoop, cancelledAt, hc, stepsTaken_cancelled hc]
      · simp only [Bool.not_eq_true] at hc
        simp [collectLoop, hc, ih, stepsTaken_step hc]
        omega

/-- The loop increments exactly one of the two counters per processed
result: the final counter sum grows by the number of steps taken. -/
lemma collectLoop_counts (total : Nat) (k? : Option Nat) :
    ∀ (rs : List FutureResult) (pc tr ts : Nat),
      (collectLoop total k? rs pc tr ts).2.2.1 + (collectLoop total k? rs pc tr ts).2.2.2
        = tr + ts + stepsTaken k? pc rs.length := by
  intro rs
  induction rs with
  | nil =>
      intro pc tr ts
      simp [collectLoop, stepsTaken_zero_len]
  | cons r rest ih =>
      intro pc tr ts
      by_cases hc : cancelledAt k? pc
      · cases k? with
        | none => simp [cancelledAt] at hc
        | some k =>
            simp [cancelledAt] at hc
            simp [collectLoop, cancelledAt, hc, stepsTaken_cancelled hc]
      · simp only [Bool.not_eq_true] at hc
        by_cases hr : (classify r).2
        · simp [collectLoop, hc, hr, ih, stepsTaken_step hc]
          omega
        · simp only [Bool.not_eq_true] at hr
          simp [collectLoop, hc, hr, ih, stepsTaken_step hc]
          omega

/-- Closed form of the progress emissions of the collection loop. -/
lemma collectLoop_progress (total : Nat) (k? : Option Nat) :
    ∀ (rs : List FutureResult) (pc tr ts : Nat),
      progressEvents (collectLoop total k? rs pc tr ts).1
        = (List.range (stepsTaken k? pc rs.length)).map (fun i => (pc + i + 1, total)) := by
  intro rs
  induction rs with
  | nil =>
      intro pc tr ts
      simp [collectLoop, stepsTaken_zero_len]
  | cons r rest ih =>
      intro pc tr ts
      by_cases hc : cancelledAt k? pc
      · cases k? with
        | none => simp [cancelledAt] at hc
        | some k =>
            simp [cancelledAt] at hc
            simp [collectLoop, cancelledAt, hc, stepsTaken_cancelled hc]
      · simp only [Bool.not_eq_true] at hc
        simp only [collectLoop, hc, Bool.false_eq_true, if_false, List.length_cons,
          stepsTaken_step hc, progressEvents_log, progressEvents_progress, ih,
          List.range_succ_eq_map, List.map_cons, List.map_map]
        congr 1
        apply List.map_congr_left
        simp only [List.mem_range, Function.comp_apply, Prod.mk.injEq, and_true]
        intro i hi
        omega

/-- The collection loop itself never emits a `finished` signal. -/
lemma collectLoop_no_finished (total : Nat) (k? : Option Nat) :
    ∀ (rs : List FutureResult) (pc tr ts : Nat),
      finishedEvents (collectLoop total k? rs pc tr ts).1 = [] := by
  intro rs
  induction rs with
  | nil => intro pc tr ts; simp [collectLoop]
  | cons r rest ih =>
      intro pc tr ts
      by_cases hc : cancelledAt k? pc
      · simp [collectLoop, hc]
      · simp only [Bool.not_eq_true] at hc
        simp [collectLoop, hc, ih]

/-- If the flag is observed set strictly before the pending results are
exhausted, the loop emits the cancellation log line. -/
lemma collectLoop_cancel_mem (total k : Nat) :
    ∀ (rs : List FutureResult) (pc tr ts : Nat), k - pc < rs.length →
      RunEvent.log "Processing cancelled." ∈ (collectLoop total (some k) rs pc tr ts).1 := by
  intro rs
  induction rs with
  | nil => intro pc tr ts h; simp at h
  | cons r rest ih =>
      intro pc tr ts h
      by_cases hc : cancelledAt (some k) pc
      · simp [collectLoop, hc]
      · simp only [Bool.not_eq_true] at hc
        have hk : pc < k := by
          simp [cancelledAt] at hc
          omega
        simp only [collectLoop, hc, Bool.false_eq_true, if_false, List.mem_cons]
        right; right
        apply ih
        simp at h
        omega

/-- `run` on a nonempty discovery result, unfolded to its event shape. -/
lemma run_ok_cons (folder : String) (maxWorkers : Nat) (results : List FutureResult)
    (k? : Option Nat) (h : results ≠ []) :
    run folder maxWorkers (Except.ok results) k? =
      RunEvent.log ("Scanning folder: " ++ folder) ::
        RunEvent.log ("Found " ++ toString results.length ++ " images. Starting processing...") ::
          RunEvent.log ("Using " ++ toString maxWorkers ++ " worker threads.") ::
            ((collectLoop results.length k? results 0 0 0).1 ++
              [RunEvent.finished (collectLoop results.length k? results 0 0 0).2.1
                (collectLoop results.length k? results 0 0 0).2.2.1
                (collectLoop results.length k? results 0 0 0).2.2.2]) := by
  have hlen : results.length ≠ 0 := by simpa using h
  simp [run, hlen]

/-- Closed form of the progress emissions of a whole (non-fatal) run. -/
lemma run_progress (folder : String) (maxWorkers : Nat) (results : List FutureResult)
    (k? : Option Nat) :
    progressEvents (run folder maxWorkers (Except.ok results) k?)
      = (List.range (stepsTaken k? 0 results.length)).map
          (fun i => (i + 1, results.length)) := by
  rcases eq_or_ne results [] with h | h
  · subst h
    simp [run, stepsTaken_zero_len]
  · rw [run_ok_cons folder maxWorkers results k? h]
    simp only [progressEvents_log, progressEvents_append, progressEvents_finished,
      progressEvents_nil, List.append_nil, collectLoop_progress]
    apply List.map_congr_left
    intro i hi
    simp

/-- Every run trace ends with one `finished` emission and contains no
other: the `finished` signal fires exactly once, as the final event. -/
lemma run_finished_shape (folder : String) (maxWorkers : Nat)
    (discovery : Except String (List FutureResult)) (k? : Option Nat) :
    ∃ pre p r s, run folder maxWorkers discovery k? = pre ++ [RunEvent.finished p r s] ∧
      finishedEvents (run folder maxWorkers discovery k?) = [(p, r, s)] := by
  cases discovery with
  | error e =>
      refine ⟨[RunEvent.log ("Scanning folder: " ++ folder),
        RunEvent.log ("Fatal error: " ++ e), RunEvent.log "<traceback>"], 0, 0, 0, ?_, ?_⟩
      · simp [run]
      · simp [run]
  | ok results =>
      rcases eq_or_ne results [] with h | h
      · subst h
        refine ⟨[RunEvent.log ("Scanning folder: " ++ folder),
          RunEvent.log "No supported images found."], 0, 0, 0, ?_, ?_⟩
        · simp [run]
        · simp [run]
      · rw [run_ok_cons folder maxWorkers results k? h]
        refine ⟨RunEvent.log ("Scanning folder: " ++ folder) ::
          RunEvent.log ("Found " ++ toString results.length ++ " images. Starting processing...") ::
            RunEvent.log ("Using " ++ toString maxWorkers ++ " worker threads.") ::
              (collectLoop results.length k? results 0 0 0).1,
          (collectLoop results.length k? results 0 0 0).2.1,
          (collectLoop results.length k? results 0 0 0).2.2.1,
          (collectLoop results.length k? results 0 0 0).2.2.2, ?_, ?_⟩
        · simp
        · simp [collectLoop_no_finished]

/-- C4: for every batch run — normal, zero-file, cancelled or fatal — the
terminal `finished` event fires exactly once, and it is the final emitted
event of the run. -/
theorem c4_finished_exactly_once (folder : String) (maxWorkers : Nat)
    (discovery : Except String (List FutureResult)) (k? : Option Nat) :
    ∃ pre p r s, run folder maxWorkers discovery k? = pre ++ [RunEvent.finished p r s] ∧
      finishedEvents (run folder maxWorkers discovery k?) = [(p, r, s)] :=
  run_finished_shape folder maxWorkers discovery k?

/-- C7: a discovery that matches zero files makes the run emit the scan log,
the "No supported images found." line and an immediate terminal summary with
all counters zero — no progress events, no submitted work.  The first
conjunct shows `find_images` indeed returns no candidate when no directory
entry is a regular file with an allow-listed suffix. -/
theorem c7_zero_files (folder : String) (maxWorkers : Nat) (k? : Option Nat)
    (heic : Bool) (entries : List DirEntry) (env : Path → FileEntry)
    (h : ∀ e ∈ entries, e.isFile = true →
      (SUPPORTED_FORMATS heic).contains e.path.suffix.toLower = false) :
    find_images heic entries = [] ∧
    run folder maxWorkers (Except.ok (resultsOf env (find_images heic entries))) k? =
      [RunEvent.log ("Scanning folder: " ++ folder),
       RunEvent.log "No supported images found.",
       RunEvent.finished 0 0 0] ∧
    progressEvents
      (run folder maxWorkers (Except.ok (resultsOf env (find_images heic entries))) k?) = [] := by
  have hnil : find_images heic entries = [] := by
    unfold find_images
    rw [List.map_eq_nil_iff, List.filter_eq_nil_iff]
    intro e he
    rcases hf : e.isFile with _ | _
    · simp [hf]
    · simp [hf]
      simpa using h e he hf
  refine ⟨hnil, ?_, ?_⟩
  · rw [hnil]
    simp [run, resultsOf]
  · rw [hnil]
    simp [run, resultsOf]

/-- C2: if the cancellation flag is first observed set after `k` collected
results, with `1 ≤ k < N`, the run logs "Processing cancelled.", stops
collecting (exactly `k` progress events), and still ends with one terminal
summary whose counters cover exactly the `k` results collected before the
cancellation, so `totalCompleted = k < N`. -/
theorem c2_cancellation (folder : String) (maxWorkers : Nat)
    (results : List FutureResult) (k : Nat) (h1 : 1 ≤ k) (h2 : k < results.length) :
    RunEvent.log "Processing cancelled." ∈ run folder maxWorkers (Except.ok results) (some k) ∧
    (∃ pre tr ts, run folder maxWorkers (Except.ok results) (some k)
        = pre ++ [RunEvent.finished k tr ts] ∧
      finishedEvents (run folder maxWorkers (Except.ok results) (some k)) = [(k, tr, ts)] ∧
      tr + ts = k ∧ k < results.length) ∧
    (progressEvents (run folder maxWorkers (Except.ok results) (some k))).length = k := by
  have hne : results ≠ [] := by
    intro hnil
    rw [hnil] at h2
    simp at h2
  have hsteps : stepsTaken (some k) 0 results.length = k := by
    simp [stepsTaken]
    omega
  have hp : (collectLoop results.length (some k) results 0 0 0).2.1 = k := by
    have := collectLoop_processed results.length (some k) results 0 0 0
    rw [hsteps] at this
    omega
  refine ⟨?_, ?_, ?_⟩
  · rw [run_ok_cons folder maxWorkers results (some k) hne]
    have hm := collectLoop_cancel_mem results.length k results 0 0 0 (by omega)
    simp only [List.mem_cons, List.mem_append]
    tauto
  · have hrs : (collectLoop results.length (some k) results 0 0 0).2.2.1
        + (collectLoop results.length (some k) results 0 0 0).2.2.2 = k := by
      have := collectLoop_counts results.length (some k) results 0 0 0
      rw [hsteps] at this
      omega
    refine ⟨RunEvent.log ("Scanning folder: " ++ folder) ::
      RunEvent.log ("Found " ++ toString results.length ++ " images. Starting processing...") ::
        RunEvent.log ("Using " ++ toString maxWorkers ++ " worker threads.") ::
          (collectLoop results.length (some k) results 0 0 0).1,
      (collectLoop results.length (some k) results 0 0 0).2.2.1,
      (collectLoop results.length (some k) results 0 0 0).2.2.2, ?_, ?_, hrs, h2⟩
    · rw [run_ok_cons folder maxWorkers results (some k) hne, hp]
      simp
    · rw [run_ok_cons folder maxWorkers results (some k) hne, hp]
      simp [collectLoop_no_finished]
  · rw [run_progress, hsteps]
    simp

/-- C3: in every batch run over `N` discovered files, each progress event
`(completed, total)` satisfies `0 < completed ≤ total = N`, the completed
values are monotonically non-decreasing across successive events, and in an
uncancelled run they are exactly `1, 2, ..., N` (so all `N` outcomes are
collected, each exactly once) with the terminal summary reporting `N`
completed. -/
theorem c3_progress_invariants (folder : String) (maxWorkers : Nat)
    (results : List FutureResult) (k? : Option Nat) :
    (∀ pr ∈ progressEvents (run folder maxWorkers (Except.ok results) k?),
        0 < pr.1 ∧ pr.1 ≤ pr.2 ∧ pr.2 = results.length) ∧
    List.Chain' (fun a b : Nat × Nat => a.1 ≤ b.1)
      (progressEvents (run folder maxWorkers (Except.ok results) k?)) ∧
    (k? = none →
      progressEvents (run folder maxWorkers (Except.ok results) k?)
        = (List.range results.length).map (fun i => (i + 1, results.length)) ∧
      ∃ tr ts, finishedEvents (run folder maxWorkers (Except.ok results) k?)
        = [(results.length, tr, ts)]) := by
  have hb : stepsTaken k? 0 results.length ≤ results.length := by
    cases k? <;> simp [stepsTaken]
  refine ⟨?_, ?_, ?_⟩
  · intro pr hpr
    rw [run_progress] at hpr
    simp only [List.mem_map, List.mem_range] at hpr
    obtain ⟨i, hi, rfl⟩ := hpr
    refine ⟨by omega, by simp; omega, rfl⟩
  · rw [run_progress]
    rw [List.chain'_map]
    apply List.Pairwise.chain'
    have := List.pairwise_lt_range (stepsTaken k? 0 results.length)
    exact this.imp (fun hab => by omega)
  · intro hk
    subst hk
    constructor
    · rw [run_progress]
      simp [stepsTaken]
    · rcases eq_or_ne results [] with h | h
      · subst h
        exact ⟨0, 0, by simp [run]⟩
      · rw [run_ok_cons folder maxWorkers results none h]
        refine ⟨(collectLoop results.length none results 0 0 0).2.2.1,
          (collectLoop results.length none results 0 0 0).2.2.2, ?_⟩
        have hp := collectLoop_processed results.length none results 0 0 0
        simp [stepsTaken] at hp
        simp [collectLoop_no_finished, hp]

/-- C10: each collected result increments `processed_count` and exactly one
of the `total_resized`/`total_skipped` buckets, so the loop invariant
`completed = transformed + skipped` holds at every emission point and at
the terminal summary; a result that carries a failure is counted in the
skipped bucket, and the emitted summary has no separate failed counter. -/
theorem c10_counter_equation :
    (∀ (total : Nat) (k? : Option Nat) (rs : List FutureResult) (pc tr ts : Nat),
      pc = tr + ts →
      (collectLoop total k? rs pc tr ts).2.1
        = (collectLoop total k? rs pc tr ts).2.2.1 + (collectLoop total k? rs pc tr ts).2.2.2) ∧
    (∀ (folder : String) (maxWorkers : Nat) (results : List FutureResult) (k? : Option Nat)
        (t : Nat × Nat × Nat),
      t ∈ finishedEvents (run folder maxWorkers (Except.ok results) k?) →
      t.1 = t.2.1 + t.2.2) ∧
    (∀ (total : Nat) (e : String) (pc tr ts : Nat),
      (collectLoop total none [Except.error e] pc tr ts).2 = (pc + 1, tr, ts + 1)) := by
  refine ⟨?_, ?_, ?_⟩
  · intro total k? rs pc tr ts hinv
    have h1 := collectLoop_processed total k? rs pc tr ts
    have h2 := collectLoop_counts total k? rs pc tr ts
    omega
  · intro folder maxWorkers results k? t ht
    rcases eq_or_ne results [] with h | h
    · subst h
      simp [run] at ht
      subst ht
      simp
    · rw [run_ok_cons folder maxWorkers results k? h] at ht
      simp [collectLoop_no_finished] at ht
      subst ht
      have h1 := collectLoop_processed results.length k? results 0 0 0
      have h2 := collectLoop_counts results.length k? results 0 0 0
      omega
  · intro total e pc tr ts
    simp [collectLoop, cancelledAt, classify]

/-- C1: no exception escapes `process_image`: a normal return of the `try`
body is returned as-is, and any exception raised by the body — at
open/decode, resize, encode/write or delete — is caught and converted into
the `(False, "Error processing ...")` result carrying the error message
(with the effects performed before the exception preserved).  Consequently
(third conjunct) an uncancelled collection loop processes every one of its
results, whatever they contain: a single failing file never aborts the
batch. -/
theorem c1_exceptions_contained (entry : FileEntry) (p : Path) :
    (∀ r, processImageBody entry p = Except.ok r → process_image entry p = r) ∧
    (∀ e effs, processImageBody entry p = Except.error (e, effs) →
      process_image entry p = ((false, errorMessage p e), effs)) ∧
    (∀ (total : Nat) (rs : List FutureResult) (pc tr ts : Nat),
      (collectLoop total none rs pc tr ts).2.1 = pc + rs.length) := by
  refine ⟨?_, ?_, ?_⟩
  · intro r hr
    unfold process_image
    rw [hr]
  · intro e effs he
    unfold process_image
    rw [he]
  · intro total rs pc tr ts
    have h := collectLoop_processed total none rs pc tr ts
    simpa [stepsTaken] using h

/-- C5: whenever the larger dimension of the decoded image is at most
`MAX_DIMENSION` (3840, inclusive boundary), `process_image` returns the
skipped result and performs no write and no deletion. -/
theorem c5_skip_within_limit (entry : FileEntry) (p : Path)
    (hdec : entry.decodeOk = true)
    (hle : max entry.width entry.height ≤ MAX_DIMENSION) :
    process_image entry p =
      ((false, skippedMessage (max entry.width entry.height) p), FSEffects.mk [] []) := by
  unfold process_image processImageBody
  simp [hdec, hle]

/-- C6: when the larger dimension exceeds `MAX_DIMENSION`, the computed new
size has its larger side exactly `MAX_DIMENSION` and its smaller side the
integer truncation of `(smaller / larger) * MAX_DIMENSION`; in particular
a 7680 x 4320 image maps to exactly 3840 x 2160. -/
theorem c6_aspect_ratio (width height : Nat) (h : MAX_DIMENSION < max width height) :
    max (newDimensions width height).1 (newDimensions width height).2 = MAX_DIMENSION ∧
    min (newDimensions width height).1 (newDimensions width height).2
      = min width height * MAX_DIMENSION / max width height ∧
    newDimensions 7680 4320 = (3840, 2160) := by
  have key : ∀ a b : Nat, b ≤ a → 0 < a → b * MAX_DIMENSION / a ≤ MAX_DIMENSION := by
    intro a b hba ha
    calc b * MAX_DIMENSION / a ≤ a * MAX_DIMENSION / a :=
          Nat.div_le_div_right (Nat.mul_le_mul_right _ hba)
      _ = MAX_DIMENSION := Nat.mul_div_cancel_left _ ha
  by_cases hwh : height < width
  · have hmax : max width height = width := Nat.max_eq_left (le_of_lt hwh)
    have hmin : min width height = height := Nat.min_eq_right (le_of_lt hwh)
    have hw : 0 < width := by
      rw [hmax] at h
      omega
    have hle := key width height (le_of_lt hwh) hw
    refine ⟨?_, ?_, by decide⟩
    · simp only [newDimensions, if_pos hwh]
      exact Nat.max_eq_left hle
    · simp only [newDimensions, if_pos hwh]
      rw [hmax, hmin]
      exact Nat.min_eq_right hle
  · have hwh' : width ≤ height := le_of_not_lt hwh
    have hmax : max width height = height := Nat.max_eq_right hwh'
    have hmin : min width height = width := Nat.min_eq_left hwh'
    have hh : 0 < height := by
      rw [hmax] at h
      omega
    have hle := key height width hwh' hh
    refine ⟨?_, ?_, by decide⟩
    · simp only [newDimensions, if_neg hwh]
      exact Nat.max_eq_right hle
    · simp only [newDimensions, if_neg hwh]
      rw [hmax, hmin]
      exact Nat.min_eq_left hle

/-- C8: a successful transform writes exactly one file, at the original
path with its suffix replaced by `.webp`, and deletes the original exactly
when the output path differs from the original path and the output file is
confirmed to exist after the write. -/
theorem c8_transform_effects (entry : FileEntry) (p : Path) (msg : String) (effs : FSEffects)
    (h : process_image entry p = ((true, msg), effs)) :
    effs.writes = [p.with_suffix ".webp"] ∧
    (effs.deletes ≠ [] → (p.with_suffix ".webp" ≠ p ∧ entry.outputExistsAfterSave = true)) ∧
    ((p.with_suffix ".webp" ≠ p ∧ entry.outputExistsAfterSave = true) → effs.deletes = [p]) := by
  unfold process_image processImageBody at h
  by_cases hdec : entry.decodeOk = true
  · by_cases hle : max entry.width entry.height ≤ MAX_DIMENSION
    · simp [hdec, hle] at h
    · by_cases hrs : entry.resizeOk = true
      · by_cases hsv : entry.saveOk = true
        · by_cases hcond : p.with_suffix ".webp" ≠ p ∧ entry.outputExistsAfterSave = true
          · by_cases hunl : entry.unlinkOk = true
            · simp [hdec, hle, hrs, hsv, hcond, hunl] at h
              obtain ⟨-, heffs⟩ := h
              subst heffs
              exact ⟨rfl, fun _ => hcond, fun _ => rfl⟩
            · simp only [Bool.not_eq_true] at hunl
              simp [hdec, hle, hrs, hsv, hcond, hunl] at h
          · simp [hdec, hle, hrs, hsv, hcond] at h
            obtain ⟨-, heffs⟩ := h
            subst heffs
            refine ⟨rfl, ?_, ?_⟩
            · intro hd
              simp at hd
            · intro hc
              exact absurd hc hcond
        · simp only [Bool.not_eq_true] at hsv
          simp [hdec, hle, hrs, hsv] at h
      · simp only [Bool.not_eq_true] at hrs
        simp [hdec, hle, hrs] at h
  · simp only [Bool.not_eq_true] at hdec
    simp [hdec] at h

/-- A file whose decode succeeds and whose dimensions are within the
limit: `process_image` skips it. -/
def goodEntry : FileEntry := FileEntry.mk 1200 800 true true true true true

/-- A corrupted/unreadable file: opening it raises. -/
def corruptEntry : FileEntry := FileEntry.mk 0 0 false true true true true

/-- The i-th candidate path of the ten-file failure-isolation scenario. -/
def path9 (i : Nat) : Path := Path.mk ("file" ++ toString i) ".jpg"

/-- Ten candidate files, in submission order. -/
def paths9 : List Path := (List.range 10).map (fun i => path9 (i + 1))

/-- The environment of the scenario: file 5 is corrupted, all others decode
fine and are within the size limit. -/
def env9 : Path → FileEntry := fun p => if p = path9 5 then corruptEntry else goodEntry

/-- The full run of the ten-file scenario, uncancelled, completion order
equal to submission order. -/
def run9 : List RunEvent := run "folder" 8 (Except.ok (resultsOf env9 paths9)) none

/-- C9 counterexample: in the ten-file scenario with file 5 corrupted, the
emitted terminal summary is `(10, 0, 10)` — the failed file is counted in
the skipped bucket.  The claimed summary with a failed count distinct from
the skipped count (which would report 9 skipped) is never emitted: the
`finished` signal carries only processed/resized/skipped. -/
theorem c9_counterexample :
    finishedEvents run9 = [(10, 0, 10)] ∧ finishedEvents run9 ≠ [(10, 0, 9)] := by
  decide

/-- C9 (amended): with ten candidate files of which exactly file 5 is
corrupted, the batch completes all ten files (`totalCompleted = 10`),
progress runs 1..10 so files 6-10 are not aborted, file 5 yields a Failed
log line, files 6-10 yield their own outcome log lines — but the failure is
folded into the skipped counter: the summary is `(10, 0, 10)` and carries
no separate failed counter. -/
theorem c9_failure_isolation :
    finishedEvents run9 = [(10, 0, 10)] ∧
    progressEvents run9 = (List.range 10).map (fun i => (i + 1, 10)) ∧
    RunEvent.log (errorMessage (path9 5) "cannot identify image file") ∈ run9 ∧
    RunEvent.log (skippedMessage 1200 (path9 6)) ∈ run9 ∧
    RunEvent.log (skippedMessage 1200 (path9 7)) ∈ run9 ∧
    RunEvent.log (skippedMessage 1200 (path9 8)) ∈ run9 ∧
    RunEvent.log (skippedMessage 1200 (path9 9)) ∈ run9 ∧
    RunEvent.log (skippedMessage 1200 (path9 10)) ∈ run9 := by
  decide

/-- A small concrete completion-order result list exercising all three
outcome kinds: one transform, one raised exception, one skip. -/
def wresults : List FutureResult :=
  [Except.ok (true, "a"), Except.error "boom", Except.ok (false, "b")]

theorem c1_exceptions_contained_witness :
    process_image corruptEntry (path9 5)
      = ((false, errorMessage (path9 5) "cannot identify image file"), FSEffects.mk [] []) :=
  (c1_exceptions_contained corruptEntry (path9 5)).2.1
    "cannot identify image file" (FSEffects.mk [] []) rfl

theorem c2_cancellation_witness :
    RunEvent.log "Processing cancelled." ∈ run "f" 2 (Except.ok wresults) (some 1) ∧
    (∃ pre tr ts, run "f" 2 (Except.ok wresults) (some 1)
        = pre ++ [RunEvent.finished 1 tr ts] ∧
      finishedEvents (run "f" 2 (Except.ok wresults) (some 1)) = [(1, tr, ts)] ∧
      tr + ts = 1 ∧ 1 < wresults.length) ∧
    (progressEvents (run "f" 2 (Except.ok wresults) (some 1))).length = 1 :=
  c2_cancellation "f" 2 wresults 1 (by decide) (by decide)

theorem c3_progress_invariants_witness :
    (∀ pr ∈ progressEvents (run "f" 2 (Except.ok wresults) none),
        0 < pr.1 ∧ pr.1 ≤ pr.2 ∧ pr.2 = wresults.length) ∧
    List.Chain' (fun a b : Nat × Nat => a.1 ≤ b.1)
      (progressEvents (run "f" 2 (Except.ok wresults) none)) ∧
    ((none : Option Nat) = none →
      progressEvents (run "f" 2 (Except.ok wresults) none)
        = (List.range wresults.length).map (fun i => (i + 1, wresults.length)) ∧
      ∃ tr ts, finishedEvents (run "f" 2 (Except.ok wresults) none)
        = [(wresults.length, tr, ts)]) :=
  c3_progress_invariants "f" 2 wresults none

theorem c5_skip_within_limit_witness :
    process_image (FileEntry.mk 3840 2160 true true true true true) (Path.mk "img" ".jpg")
      = ((false, skippedMessage (max 3840 2160) (Path.mk "img" ".jpg")), FSEffects.mk [] []) :=
  c5_skip_within_limit (FileEntry.mk 3840 2160 true true true true true)
    (Path.mk "img" ".jpg") rfl (by decide)

theorem c6_aspect_ratio_witness :
    max (newDimensions 7680 4320).1 (newDimensions 7680 4320).2 = MAX_DIMENSION ∧
    min (newDimensions 7680 4320).1 (newDimensions 7680 4320).2
      = min 7680 4320 * MAX_DIMENSION / max 7680 4320 ∧
    newDimensions 7680 4320 = (3840, 2160) :=
  c6_aspect_ratio 7680 4320 (by decide)

theorem c7_zero_files_witness :
    find_images true
      [DirEntry.mk (Path.mk "notes" ".txt") false, DirEntry.mk (Path.mk "sub" "") false] = [] ∧
    run "f" 2 (Except.ok (resultsOf (fun _ => goodEntry) (find_images true
      [DirEntry.mk (Path.mk "notes" ".txt") false, DirEntry.mk (Path.mk "sub" "") false]))) none =
      [RunEvent.log ("Scanning folder: " ++ "f"),
       RunEvent.log "No supported images found.",
       RunEvent.finished 0 0 0] ∧
    progressEvents (run "f" 2 (Except.ok (resultsOf (fun _ => goodEntry) (find_images true
      [DirEntry.mk (Path.mk "notes" ".txt") false, DirEntry.mk (Path.mk "sub" "") false]))) none)
      = [] :=
  c7_zero_files "f" 2 none true
    [DirEntry.mk (Path.mk "notes" ".txt") false, DirEntry.mk (Path.mk "sub" "") false]
    (fun _ => goodEntry) (by decide)

theorem c8_transform_effects_witness :
    (process_image (FileEntry.mk 7680 4320 true true true true true)
        (Path.mk "img" ".jpg")).2.writes
      = [(Path.mk "img" ".jpg").with_suffix ".webp"] ∧
    ((process_image (FileEntry.mk 7680 4320 true true true true true)
        (Path.mk "img" ".jpg")).2.deletes ≠ [] →
      ((Path.mk "img" ".jpg").with_suffix ".webp" ≠ Path.mk "img" ".jpg" ∧
        (FileEntry.mk 7680 4320 true true true true true).outputExistsAfterSave = true)) ∧
    (((Path.mk "img" ".jpg").with_suffix ".webp" ≠ Path.mk "img" ".jpg" ∧
        (FileEntry.mk 7680 4320 true true true true true).outputExistsAfterSave = true) →
      (process_image (FileEntry.mk 7680 4320 true true true true true)
          (Path.mk "img" ".jpg")).2.deletes = [Path.mk "img" ".jpg"]) :=
  c8_transform_effects (FileEntry.mk 7680 4320 true true true true true) (Path.mk "img" ".jpg")
    (process_image (FileEntry.mk 7680 4320 true true true true true) (Path.mk "img" ".jpg")).1.2
    (process_image (FileEntry.mk 7680 4320 true true true true true) (Path.mk "img" ".jpg")).2
    rfl

theorem c10_counter_equation_witness :
    (collectLoop 3 none wresults 0 0 0).2.1
      = (collectLoop 3 none wresults 0 0 0).2.2.1 + (collectLoop 3 none wresults 0 0 0).2.2.2 :=
  c10_counter_equation.1 3 none wresults 0 0 0 rfl

end ReSizer
